import Mathlib

/-!
Verification of the Campaign Orchestration Engine of
`src/src/utils/firebaseBackend.py` (FastAPI backend, v2.0.0).

The Python module is shallowly embedded: the global dictionaries
(`active_campaigns`, `daily_counts`) become explicit state values threaded
through pure functions, remote collaborators (Firebase directory lookup,
password-reset delivery) become function parameters, and `asyncio.sleep`
calls become an explicit trace of wait durations (in milliseconds).
Python's unbounded non-negative counters become `Nat`; API-supplied
integers that may be zero or negative (`batchSize`, `workers`) become
`Int`.  Python dictionaries whose insertion order is observable are
embedded as association lists with insert-or-overwrite update
(`setAssoc`); the flat string-keyed `daily_counts` store is embedded as a
function `String → Option DailyRecord`.
-/

namespace FirebaseBackend

/-- One entry of `campaign["projectStats"]`: the per-project counters
`processed` / `successful` / `failed` (firebaseBackend.py line 361). -/
structure ProjectStats where
  processed : Nat
  successful : Nat
  failed : Nat
deriving Repr, DecidableEq

/-- One record of the `daily_counts` store:
`{"project_id": ..., "date": ..., "sent": ...}` (line 102). -/
structure DailyRecord where
  project_id : String
  date : String
  sent : Nat
deriving Repr, DecidableEq

/-- The `daily_counts` global dictionary, keyed by the string
`f"{project_id}_{today}"`. -/
def DailyCounts : Type := String → Option DailyRecord

/-- A campaign record as built by `create_campaign` (lines 347-362).
Timestamps are abstract `Nat` instants. -/
structure Campaign where
  id : String
  name : String
  projectIds : List String
  selectedUsers : List (String × List String)
  batchSize : Int
  workers : Int
  template : Option String
  status : String
  createdAt : Nat
  startedAt : Option Nat
  completedAt : Option Nat
  processed : Nat
  successful : Nat
  failed : Nat
  errors : List String
  projectStats : List (String × ProjectStats)
deriving Repr, DecidableEq

/-- The `active_campaigns` global dictionary, keyed by campaign id. -/
def CampaignStore : Type := String → Option Campaign

/-- Point update of a string-keyed function store (a Python dict write). -/
def storeSet {β : Type} (m : String → Option β) (k : String) (v : Option β) :
    String → Option β :=
  fun k' => if k' = k then v else m k'

/-- Lookup in an association list embedding a Python dict. -/
def getAssoc {β : Type} (k : String) : List (String × β) → Option β
  | [] => none
  | (k', v) :: rest => if k' = k then some v else getAssoc k rest

/-- Python dict assignment `d[k] = v` on an association list: overwrite in
place when the key exists (keeping insertion order), append otherwise. -/
def setAssoc {β : Type} (k : String) (v : β) : List (String × β) → List (String × β)
  | [] => [(k, v)]
  | (k', v') :: rest => if k' = k then (k, v) :: rest else (k', v') :: setAssoc k v rest

theorem getAssoc_setAssoc_same {β : Type} (k : String) (v : β) (l : List (String × β)) :
    getAssoc k (setAssoc k v l) = some v := by
  induction l with
  | nil => simp [getAssoc, setAssoc]
  | cons hd tl ih =>
      by_cases h : hd.1 = k
      · simp [getAssoc, setAssoc, h]
      · simp [getAssoc, setAssoc, h, ih]

theorem getAssoc_setAssoc_other {β : Type} (k k' : String) (v : β)
    (l : List (String × β)) (hne : k' ≠ k) :
    getAssoc k' (setAssoc k v l) = getAssoc k' l := by
  have hke : ¬ (k = k') := fun h => hne h.symm
  induction l with
  | nil => simp [getAssoc, setAssoc, hke]
  | cons hd tl ih =>
      by_cases h : hd.1 = k
      · subst h
        simp [getAssoc, setAssoc, hke]
      · simp only [setAssoc, if_neg h, getAssoc]
        by_cases h' : hd.1 = k'
        · simp [h']
        · simp [h', ih]

theorem mem_setAssoc {β : Type} (k : String) (v : β) (l : List (String × β)) :
    ∀ p ∈ setAssoc k v l, p = (k, v) ∨ p ∈ l := by
  induction l with
  | nil => simp [setAssoc]
  | cons hd tl ih =>
      intro p hp
      by_cases h : hd.1 = k
      · simp only [setAssoc, if_pos h, List.mem_cons] at hp
        rcases hp with h1 | h2
        · exact Or.inl h1
        · exact Or.inr (List.mem_cons_of_mem _ h2)
      · simp only [setAssoc, if_neg h, List.mem_cons] at hp
        rcases hp with h1 | h2
        · exact Or.inr (h1 ▸ List.mem_cons_self _ _)
        · rcases ih p h2 with h3 | h4
          · exact Or.inl h3
          · exact Or.inr (List.mem_cons_of_mem _ h4)

/-! ## Quota Ledger (`daily_counts`, lines 96-111)

File persistence (`save_daily_counts`, lines 88-94) only mirrors the
in-memory dictionary to disk and swallows its own errors; the in-memory
dictionary is authoritative, so the embedding models the dictionary. -/

/-- The key `f"{project_id}_{today}"` (lines 99, 110). -/
def dailyKey (project_id today : String) : String :=
  project_id ++ "_" ++ today

/-- Embeds `increment_daily_count` (lines 96-105): locate or lazily create today's
record for the project, then increment its `sent` field by one.  `today` is
the value of `date.today().isoformat()`, passed explicitly. -/
def increment_daily_count (today project_id : String) (dc : DailyCounts) : DailyCounts :=
  let key := dailyKey project_id today
  let r : DailyRecord :=
    match dc key with
    | none => { project_id := project_id, date := today, sent := 0 }
    | some r => r
  storeSet dc key (some { r with sent := r.sent + 1 })

/-- Embeds `get_daily_count` (lines 107-111):
`daily_counts.get(key, {}).get("sent", 0)`. -/
def get_daily_count (today project_id : String) (dc : DailyCounts) : Nat :=
  match dc (dailyKey project_id today) with
  | none => 0
  | some r => r.sent

theorem get_increment_daily_count_same (today project_id : String) (dc : DailyCounts) :
    get_daily_count today project_id (increment_daily_count today project_id dc) =
      get_daily_count today project_id dc + 1 := by
  unfold get_daily_count increment_daily_count storeSet
  cases h : dc (dailyKey project_id today) <;> simp [h]

theorem increment_daily_count_frame (today project_id : String) (dc : DailyCounts)
    (k : String) (hk : k ≠ dailyKey project_id today) :
    increment_daily_count today project_id dc k = dc k := by
  unfold increment_daily_count storeSet
  cases h : dc (dailyKey project_id today) <;> simp [hk]

theorem iterate_increment_frame (today project_id : String) (dc : DailyCounts)
    (N : Nat) (k : String) (hk : k ≠ dailyKey project_id today) :
    (increment_daily_count today project_id)^[N] dc k = dc k := by
  induction N generalizing dc with
  | zero => rfl
  | succ n ih =>
      rw [Function.iterate_succ_apply]
      rw [ih (increment_daily_count today project_id dc)]
      exact increment_daily_count_frame today project_id dc k hk

theorem iterate_increment_get (today project_id : String) (dc : DailyCounts) (N : Nat) :
    get_daily_count today project_id ((increment_daily_count today project_id)^[N] dc) =
      get_daily_count today project_id dc + N := by
  induction N generalizing dc with
  | zero => rfl
  | succ n ih =>
      rw [Function.iterate_succ_apply, ih, get_increment_daily_count_same]
      omega

/-- Appending to a string is left-cancellative: needed to show that the keys
`p ++ "_" ++ d` and `p ++ "_" ++ d'` differ when the dates differ. -/
theorem dailyKey_ne_of_date_ne (p d d' : String) (h : d ≠ d') :
    dailyKey p d ≠ dailyKey p d' := by
  intro hk
  apply h
  unfold dailyKey at hk
  have hdata : (p ++ "_" ++ d).data = (p ++ "_" ++ d').data := congrArg String.data hk
  simp only [String.data_append] at hdata
  have : d.data = d'.data := List.append_cancel_left hdata
  exact String.ext this

theorem increment_daily_count_at_key (today p : String) (dc : DailyCounts) :
    increment_daily_count today p dc (dailyKey p today) =
      some (match dc (dailyKey p today) with
            | none => ⟨p, today, 1⟩
            | some r => { r with sent := r.sent + 1 }) := by
  unfold increment_daily_count storeSet
  cases h : dc (dailyKey p today) <;> simp [h]

theorem iterate_increment_record (today p : String) (dc : DailyCounts)
    (h0 : dc (dailyKey p today) = none) (N : Nat) :
    ((increment_daily_count today p)^[N] dc) (dailyKey p today) =
      if N = 0 then none else some ⟨p, today, N⟩ := by
  induction N with
  | zero => simpa using h0
  | succ n ih =>
      rw [Function.iterate_succ_apply', increment_daily_count_at_key, ih]
      by_cases hn : n = 0
      · subst hn; simp
      · simp [hn]

/-- C4: N same-day increments for a project yield `get = N`; a day
rollover reads 0 for the new day while the prior day's record is
untouched and still present in the full `daily_counts` store (`getAll`). -/
theorem C4_quota_ledger_daily_rollover (p d d' : String) (N : Nat) (dc : DailyCounts)
    (hN : 0 < N) (hd0 : dc (dailyKey p d) = none) (hd'0 : dc (dailyKey p d') = none)
    (hne : d ≠ d') :
    get_daily_count d p ((increment_daily_count d p)^[N] dc) = N
    ∧ get_daily_count d' p ((increment_daily_count d p)^[N] dc) = 0
    ∧ ((increment_daily_count d p)^[N] dc) (dailyKey p d) = some ⟨p, d, N⟩
    ∧ (∀ k, k ≠ dailyKey p d → ((increment_daily_count d p)^[N] dc) k = dc k) := by
  have hkey : dailyKey p d' ≠ dailyKey p d :=
    dailyKey_ne_of_date_ne p d' d (fun h => hne h.symm)
  have hget0 : get_daily_count d p dc = 0 := by
    unfold get_daily_count; rw [hd0]
  refine ⟨?_, ?_, ?_, ?_⟩
  · rw [iterate_increment_get, hget0, Nat.zero_add]
  · unfold get_daily_count
    rw [iterate_increment_frame d p dc N _ hkey, hd'0]
  · rw [iterate_increment_record d p dc hd0 N, if_neg (Nat.pos_iff_ne_zero.mp hN)]
  · intro k hk
    exact iterate_increment_frame d p dc N k hk

theorem C4_witness :
    get_daily_count "2026-10-11" "proj-a"
      ((increment_daily_count "2026-10-11" "proj-a")^[3] (fun _ => none)) = 3
    ∧ get_daily_count "2026-10-12" "proj-a"
      ((increment_daily_count "2026-10-11" "proj-a")^[3] (fun _ => none)) = 0
    ∧ ((increment_daily_count "2026-10-11" "proj-a")^[3] (fun _ => none))
        (dailyKey "proj-a" "2026-10-11") = some ⟨"proj-a", "2026-10-11", 3⟩
    ∧ (∀ k, k ≠ dailyKey "proj-a" "2026-10-11" →
        ((increment_daily_count "2026-10-11" "proj-a")^[3] (fun _ => none)) k =
          (fun _ => none : DailyCounts) k) :=
  C4_quota_ledger_daily_rollover "proj-a" "2026-10-11" "2026-10-12" 3 (fun _ => none)
    (by decide) rfl rfl (by decide)

/-! ## Campaign control operations (lines 341-442)

The HTTP layer is out of scope; each endpoint is embedded as a pure
function from the `active_campaigns` store (plus the request data) to a
result together with the new store.  `HTTPException` becomes an explicit
error value; in `start_campaign` the surrounding `try/except Exception`
re-wraps even the `HTTPException`s it raises into a 500 error, which the
embedding records with `startWrap`. -/

inductive ApiError where
  | notFound (detail : String)
  | badRequest (detail : String)
  | internalError (detail : String)
deriving Repr, DecidableEq

/-- Embeds `create_campaign` (lines 341-369): builds the campaign record with
`status = "pending"`, zero counters, and zeroed per-project stats for each
entry of `projectIds`. -/
def create_campaign (store : CampaignStore) (campaign_id : String) (now : Nat)
    (name : String) (projectIds : List String) (selectedUsers : List (String × List String))
    (batchSize workers : Int) (template : Option String) : CampaignStore × Campaign :=
  let campaign_data : Campaign :=
    { id := campaign_id
      name := name
      projectIds := projectIds
      selectedUsers := selectedUsers
      batchSize := batchSize
      workers := workers
      template := template
      status := "pending"
      createdAt := now
      startedAt := none
      completedAt := none
      processed := 0
      successful := 0
      failed := 0
      errors := []
      projectStats := projectIds.map (fun pid => (pid, ⟨0, 0, 0⟩)) }
  (storeSet store campaign_id (some campaign_data), campaign_data)

/-- The `CampaignUpdate` request model (lines 66-70): all four fields
optional. -/
structure CampaignUpdate where
  name : Option String := none
  batchSize : Option Int := none
  workers : Option Int := none
  template : Option String := none

/-- Python truthiness of an `Optional[str]`: `None` and `""` are falsy. -/
def truthyStr : Option String → Bool
  | none => false
  | some s => s ≠ ""

/-- Python truthiness of an `Optional[int]`: `None` and `0` are falsy. -/
def truthyInt : Option Int → Bool
  | none => false
  | some n => n ≠ 0

/-- Embeds `update_campaign` (lines 383-403): 404 when absent, 400 when
`status == "running"`; otherwise each of the four fields is overwritten
only when the supplied value is truthy. -/
def update_campaign (store : CampaignStore) (campaign_id : String)
    (campaign_update : CampaignUpdate) : Except ApiError Campaign × CampaignStore :=
  match store campaign_id with
  | none => (.error (.notFound "Campaign not found"), store)
  | some campaign =>
      if campaign.status = "running" then
        (.error (.badRequest "Cannot update running campaign"), store)
      else
        let c := campaign
        let c := if truthyStr campaign_update.name then
          { c with name := campaign_update.name.getD c.name } else c
        let c := if truthyInt campaign_update.batchSize then
          { c with batchSize := campaign_update.batchSize.getD c.batchSize } else c
        let c := if truthyInt campaign_update.workers then
          { c with workers := campaign_update.workers.getD c.workers } else c
        let c := if truthyStr campaign_update.template then
          { c with template := campaign_update.template } else c
        (.ok c, storeSet store campaign_id (some c))

/-- Embeds `delete_campaign` (lines 405-420): 404 when absent, 400 when
`status == "running"`; otherwise the campaign is removed from the store.
(`campaign_stats` is a write-only side table, untouched elsewhere.) -/
def delete_campaign (store : CampaignStore) (campaign_id : String) :
    Except ApiError Unit × CampaignStore :=
  match store campaign_id with
  | none => (.error (.notFound "Campaign not found"), store)
  | some campaign =>
      if campaign.status = "running" then
        (.error (.badRequest "Cannot delete running campaign"), store)
      else
        (.ok (), storeSet store campaign_id none)

/-- The `except Exception` block of `start_campaign` (lines 441-442)
re-wraps every exception, including the endpoint's own `HTTPException`s,
into a 500 error. -/
def startWrap (e : ApiError) : ApiError :=
  match e with
  | .notFound d => .internalError ("Failed to start campaign: " ++ d)
  | .badRequest d => .internalError ("Failed to start campaign: " ++ d)
  | .internalError d => .internalError ("Failed to start campaign: " ++ d)

/-- Embeds `start_campaign` (lines 422-442): 404 when absent, rejected when
already `"running"`; otherwise sets `status := "running"`, stamps
`startedAt`, and enqueues `run_parallel_campaign` as a background task
(returned as the campaign id to run). -/
def start_campaign (store : CampaignStore) (campaign_id : String) (now : Nat) :
    Except ApiError Unit × CampaignStore × Option String :=
  match store campaign_id with
  | none => (.error (startWrap (.notFound "Campaign not found")), store, none)
  | some campaign =>
      if campaign.status = "running" then
        (.error (startWrap (.badRequest "Campaign already running")), store, none)
      else
        (.ok (),
         storeSet store campaign_id
           (some { campaign with status := "running", startedAt := some now }),
         some campaign_id)

/-- Modelled from the spec: the backend file under `src/` defines no pause
or resume endpoint; the spec nonetheless lists "pause campaign" and
"resume campaign" in its exposed operation set (section 6) and gives their
semantics in section 4.3: `running → paused` on pause and
`paused → running` on resume, a pure status-flag toggle that does not
touch in-flight work.  `pause_campaign` follows those words. -/
def pause_campaign (store : CampaignStore) (campaign_id : String) : CampaignStore :=
  match store campaign_id with
  | none => store
  | some campaign =>
      if campaign.status = "running" then
        storeSet store campaign_id (some { campaign with status := "paused" })
      else store

/-- Modelled from the spec: the resume half of the section 4.3 contract,
`paused → running`, again a display-status toggle only (no work is
relaunched).  See `pause_campaign`. -/
def resume_campaign (store : CampaignStore) (campaign_id : String) : CampaignStore :=
  match store campaign_id with
  | none => store
  | some campaign =>
      if campaign.status = "paused" then
        storeSet store campaign_id (some { campaign with status := "running" })
      else store

/-- A concrete campaign record used by the witnesses below. -/
def sampleCampaign : Campaign :=
  { id := "c1"
    name := "camp"
    projectIds := ["p"]
    selectedUsers := [("p", ["u1"])]
    batchSize := 10
    workers := 2
    template := none
    status := "pending"
    createdAt := 0
    startedAt := none
    completedAt := none
    processed := 0
    successful := 0
    failed := 0
    errors := []
    projectStats := [("p", ⟨0, 0, 0⟩)] }

/-- C6: starting a campaign whose status is `"running"` is rejected and the
store — hence the campaign's whole record — is returned unchanged, with no
background run enqueued. -/
theorem C6_start_running_rejected (store : CampaignStore) (cid : String) (now : Nat)
    (c : Campaign) (hc : store cid = some c) (hrun : c.status = "running") :
    (start_campaign store cid now).1 =
      .error (startWrap (.badRequest "Campaign already running"))
    ∧ (start_campaign store cid now).2.1 = store
    ∧ (start_campaign store cid now).2.2 = none := by
  unfold start_campaign
  rw [hc]
  simp [hrun]

theorem C6_witness :
    (start_campaign
        (storeSet (fun _ => none) "c1" (some { sampleCampaign with status := "running" }))
        "c1" 5).1 = .error (startWrap (.badRequest "Campaign already running"))
    ∧ (start_campaign
        (storeSet (fun _ => none) "c1" (some { sampleCampaign with status := "running" }))
        "c1" 5).2.1 =
        storeSet (fun _ => none) "c1" (some { sampleCampaign with status := "running" })
    ∧ (start_campaign
        (storeSet (fun _ => none) "c1" (some { sampleCampaign with status := "running" }))
        "c1" 5).2.2 = none :=
  C6_start_running_rejected _ "c1" 5 { sampleCampaign with status := "running" } rfl rfl

/-- C7: update and delete are rejected exactly while the campaign is
`"running"` (leaving the store unchanged) and succeed for every other
status. -/
theorem C7_update_delete_reject_running (store : CampaignStore) (cid : String)
    (c : Campaign) (u : CampaignUpdate) (hc : store cid = some c) :
    (c.status = "running" →
      (update_campaign store cid u).1 = .error (.badRequest "Cannot update running campaign")
      ∧ (update_campaign store cid u).2 = store
      ∧ (delete_campaign store cid).1 = .error (.badRequest "Cannot delete running campaign")
      ∧ (delete_campaign store cid).2 = store)
    ∧ (c.status ≠ "running" →
      (∃ c', (update_campaign store cid u).1 = .ok c')
      ∧ (delete_campaign store cid).1 = .ok ()
      ∧ (delete_campaign store cid).2 cid = none) := by
  constructor
  · intro hrun
    unfold update_campaign delete_campaign
    rw [hc]
    simp [hrun]
  · intro hnr
    unfold update_campaign delete_campaign
    rw [hc]
    dsimp only
    rw [if_neg hnr, if_neg hnr]
    refine ⟨⟨_, rfl⟩, rfl, ?_⟩
    unfold storeSet
    simp

theorem C7_witness :
    ((∃ c', (update_campaign (storeSet (fun _ => none) "c1" (some sampleCampaign)) "c1"
        { name := some "renamed" }).1 = .ok c')
      ∧ (delete_campaign (storeSet (fun _ => none) "c1" (some sampleCampaign)) "c1").1 = .ok ()
      ∧ (delete_campaign (storeSet (fun _ => none) "c1" (some sampleCampaign)) "c1").2 "c1" = none)
    ∧ ((update_campaign
          (storeSet (fun _ => none) "c1" (some { sampleCampaign with status := "running" }))
          "c1" { name := some "renamed" }).1 =
        .error (.badRequest "Cannot update running campaign")
      ∧ (update_campaign
          (storeSet (fun _ => none) "c1" (some { sampleCampaign with status := "running" }))
          "c1" { name := some "renamed" }).2 =
        storeSet (fun _ => none) "c1" (some { sampleCampaign with status := "running" })
      ∧ (delete_campaign
          (storeSet (fun _ => none) "c1" (some { sampleCampaign with status := "running" }))
          "c1").1 = .error (.badRequest "Cannot delete running campaign")
      ∧ (delete_campaign
          (storeSet (fun _ => none) "c1" (some { sampleCampaign with status := "running" }))
          "c1").2 =
        storeSet (fun _ => none) "c1" (some { sampleCampaign with status := "running" })) :=
  ⟨(C7_update_delete_reject_running _ "c1" sampleCampaign { name := some "renamed" } rfl).2
      (by decide),
   (C7_update_delete_reject_running _ "c1" { sampleCampaign with status := "running" }
      { name := some "renamed" } rfl).1 rfl⟩

/-- C10: on a non-running campaign, update overwrites exactly the four
settable fields, each only when its supplied value is Python-truthy
(`None`, `0`, `""` leave the field alone); status, counters, errors,
project list, selected users, stats and timestamps are never modified. -/
theorem C10_update_touches_only_truthy_fields (store : CampaignStore) (cid : String)
    (c : Campaign) (u : CampaignUpdate) (hc : store cid = some c)
    (hnr : c.status ≠ "running") :
    ∃ c', update_campaign store cid u = (.ok c', storeSet store cid (some c'))
      ∧ c'.name = (if truthyStr u.name then u.name.getD c.name else c.name)
      ∧ c'.batchSize = (if truthyInt u.batchSize then u.batchSize.getD c.batchSize
          else c.batchSize)
      ∧ c'.workers = (if truthyInt u.workers then u.workers.getD c.workers else c.workers)
      ∧ c'.template = (if truthyStr u.template then u.template else c.template)
      ∧ c'.status = c.status ∧ c'.processed = c.processed ∧ c'.successful = c.successful
      ∧ c'.failed = c.failed ∧ c'.errors = c.errors ∧ c'.projectIds = c.projectIds
      ∧ c'.selectedUsers = c.selectedUsers ∧ c'.projectStats = c.projectStats
      ∧ c'.id = c.id ∧ c'.createdAt = c.createdAt ∧ c'.startedAt = c.startedAt
      ∧ c'.completedAt = c.completedAt := by
  unfold update_campaign
  rw [hc]
  dsimp only
  rw [if_neg hnr]
  refine ⟨_, rfl, ?_⟩
  split_ifs <;> simp_all

theorem C10_witness :
    ∃ c', update_campaign (storeSet (fun _ => none) "c1" (some sampleCampaign)) "c1"
        { name := some "renamed", batchSize := some 0, workers := none,
          template := some "tmpl" } = (.ok c', storeSet
            (storeSet (fun _ => none) "c1" (some sampleCampaign)) "c1" (some c'))
      ∧ c'.name = (if truthyStr (some "renamed") then (some "renamed").getD sampleCampaign.name
          else sampleCampaign.name)
      ∧ c'.batchSize = (if truthyInt (some 0) then (some (0 : Int)).getD sampleCampaign.batchSize
          else sampleCampaign.batchSize)
      ∧ c'.workers = (if truthyInt none then (none : Option Int).getD sampleCampaign.workers
          else sampleCampaign.workers)
      ∧ c'.template = (if truthyStr (some "tmpl") then some "tmpl" else sampleCampaign.template)
      ∧ c'.status = sampleCampaign.status ∧ c'.processed = sampleCampaign.processed
      ∧ c'.successful = sampleCampaign.successful
      ∧ c'.failed = sampleCampaign.failed ∧ c'.errors = sampleCampaign.errors
      ∧ c'.projectIds = sampleCampaign.projectIds
      ∧ c'.selectedUsers = sampleCampaign.selectedUsers
      ∧ c'.projectStats = sampleCampaign.projectStats
      ∧ c'.id = sampleCampaign.id ∧ c'.createdAt = sampleCampaign.createdAt
      ∧ c'.startedAt = sampleCampaign.startedAt
      ∧ c'.completedAt = sampleCampaign.completedAt :=
  C10_update_touches_only_truthy_fields _ "c1" sampleCampaign
    { name := some "renamed", batchSize := some 0, workers := none, template := some "tmpl" }
    rfl (by decide)

/-- C3: pause on a running campaign flips only the status flag to
`"paused"` (all other fields and all other campaigns untouched — no
in-flight work is stopped), and resume on a paused campaign flips it back
to `"running"`.  Both operations are modelled from the spec, as the
backend file exposes no such endpoints. -/
theorem C3_pause_resume_toggle_status (store : CampaignStore) (cid : String)
    (c : Campaign) (hc : store cid = some c) :
    (c.status = "running" →
      pause_campaign store cid = storeSet store cid (some { c with status := "paused" }))
    ∧ (c.status = "paused" →
      resume_campaign store cid = storeSet store cid (some { c with status := "running" })) := by
  constructor
  · intro hrun
    unfold pause_campaign
    rw [hc]
    simp [hrun]
  · intro hp
    unfold resume_campaign
    rw [hc]
    simp [hp]

theorem C3_witness :
    pause_campaign
        (storeSet (fun _ => none) "c1" (some { sampleCampaign with status := "running" })) "c1" =
      storeSet (storeSet (fun _ => none) "c1" (some { sampleCampaign with status := "running" }))
        "c1" (some { { sampleCampaign with status := "running" } with status := "paused" })
    ∧ resume_campaign
        (storeSet (fun _ => none) "c1" (some { sampleCampaign with status := "paused" })) "c1" =
      storeSet (storeSet (fun _ => none) "c1" (some { sampleCampaign with status := "paused" }))
        "c1" (some { { sampleCampaign with status := "paused" } with status := "running" }) :=
  ⟨(C3_pause_resume_toggle_status _ "c1" { sampleCampaign with status := "running" } rfl).1 rfl,
   (C3_pause_resume_toggle_status _ "c1" { sampleCampaign with status := "paused" } rfl).2 rfl⟩

/-! ## Campaign run (`run_parallel_campaign`, lines 444-520)

The remote collaborators become a `RunEnv`: `known` is the set of
project ids present in both `pyrebase_apps` and `firebase_apps`;
`directory pid = none` models the whole `auth.list_users` query raising
(lines 459-466), while `directory pid = some ue` yields the `user_emails`
lookup the query built (an email is recorded only when `user.email` is
truthy, so `ue uid = some ""` stands for a user whose email field is
empty and behaves exactly like Python's falsy `""`); `getUser` models the
per-uid `auth.get_user` calls of the lightning endpoint; `sendOk` is the
outcome of `send_password_reset_email` and `sendErr` the exception text
on failure. -/

structure RunEnv where
  known : List String
  directory : String → Option (String → Option String)
  getUser : String → String → Option String
  sendOk : String → String → Bool
  sendErr : String → String → String

/-- The mutable state a campaign run touches: the campaign record itself,
the quota ledger, and the trace of `asyncio.sleep` waits in milliseconds. -/
structure Globals where
  campaign : Campaign
  daily : DailyCounts
  waits : List Nat

/-- One iteration of the send loop of `run_project_campaign`
(lines 473-501): `email = user_emails.get(uid)`; when truthy, attempt the
send (success increments `project_successful` and the quota ledger,
failure increments `project_failed` and appends an error string); then
`project_processed` and the aggregate counters are bumped — the aggregate
`successful`/`failed` deltas compare the unit's locals against the stats
stored at the previous iteration — the per-project stats are overwritten
with the locals, and the loop sleeps 0.15 s.  (Python raises `KeyError`
when `projectStats` lacks the key; the theorems below only visit states
where the key is present, as `create_campaign` arranges, so the `getD`
default is never exercised.) -/
def stepUid (env : RunEnv) (today project_id : String)
    (user_emails : String → Option String) (g : Globals) (l : ProjectStats)
    (uid : String) : Globals × ProjectStats :=
  let email : Option String := user_emails uid
  let sendAttempt : Option Bool :=
    if truthyStr email then some (env.sendOk project_id (email.getD "")) else none
  let project_successful := l.successful + (if sendAttempt = some true then 1 else 0)
  let project_failed := l.failed + (if sendAttempt = some false then 1 else 0)
  let daily := if sendAttempt = some true
    then increment_daily_count today project_id g.daily else g.daily
  let errors := if sendAttempt = some false
    then g.campaign.errors ++
      ["Failed to send to " ++ email.getD "" ++ ": " ++ env.sendErr project_id (email.getD "")]
    else g.campaign.errors
  let project_processed := l.processed + 1
  let stored := (getAssoc project_id g.campaign.projectStats).getD ⟨0, 0, 0⟩
  let c := g.campaign
  (⟨{ c with
        processed := c.processed + 1
        successful := c.successful +
          (if truthyStr email = true ∧ stored.successful < project_successful then 1 else 0)
        failed := c.failed + (if stored.failed < project_failed then 1 else 0)
        errors := errors
        projectStats := setAssoc project_id
          ⟨project_processed, project_successful, project_failed⟩ c.projectStats },
      daily,
      g.waits ++ [150]⟩,
   ⟨project_processed, project_successful, project_failed⟩)

/-- Embeds `run_project_campaign` (lines 449-501) as one sequential unit:
membership check (line 451), the single directory query building
`user_emails` (lines 457-466, aborting the unit when it raises), then the
send loop with zeroed local counters. -/
def runUnit (env : RunEnv) (today : String) (g : Globals) (project_id : String)
    (user_uids : List String) : Globals :=
  if project_id ∈ env.known then
    match env.directory project_id with
    | none => g
    | some user_emails =>
        (user_uids.foldl
          (fun (p : Globals × ProjectStats) uid =>
            stepUid env today project_id user_emails p.1 p.2 uid)
          (g, ⟨0, 0, 0⟩)).1
  else g

/-- Embeds `run_parallel_campaign` (lines 444-520): one Dispatch Unit per entry
of `selectedUsers`; when all have finished, `status := "completed"` and
`completedAt` is stamped.  (The `except` branch that sets `"failed"`
fires only on defects outside the per-send handling, e.g. a missing
`projectStats` key, which the theorems below exclude.)  This runs the
units in list order — one legal schedule of the cooperative event loop;
arbitrary interleavings are modelled by `execSchedule` below. -/
def run_parallel_campaign (env : RunEnv) (today : String) (now : Nat)
    (c : Campaign) (daily : DailyCounts) : Globals :=
  let g := c.selectedUsers.foldl
    (fun g pu => runUnit env today g pu.1 pu.2) ⟨c, daily, []⟩
  { g with campaign :=
      { g.campaign with status := "completed", completedAt := some now } }

/-- A Dispatch Unit in flight: its project, its resolved `user_emails`
lookup, its local counters, and the identifiers still to process. -/
structure UnitRun where
  project_id : String
  user_emails : String → Option String
  locals : ProjectStats
  rest : List String

/-- A snapshot of a running campaign: the shared globals plus every
in-flight unit. -/
structure SysState where
  g : Globals
  units : List UnitRun

/-- The state right after the fan-out (lines 503-509) launched one unit
per `selectedUsers` entry: units for unknown projects or failed directory
queries return immediately and are dropped. -/
def initSys (env : RunEnv) (c : Campaign) (daily : DailyCounts) : SysState :=
  { g := ⟨c, daily, []⟩
    units := c.selectedUsers.filterMap (fun pu =>
      if pu.1 ∈ env.known then
        (env.directory pu.1).map (fun ue => ⟨pu.1, ue, ⟨0, 0, 0⟩, pu.2⟩)
      else none) }

/-- One cooperative scheduling step: unit `i` (when it exists and still
has work) executes one loop iteration.  The loop body contains no `await`
other than its final sleep, so an iteration is atomic on the event
loop. -/
def stepSys (env : RunEnv) (today : String) (st : SysState) (i : Nat) : SysState :=
  match st.units.get? i with
  | none => st
  | some u =>
      match u.rest with
      | [] => st
      | uid :: rest =>
          let r := stepUid env today u.project_id u.user_emails st.g u.locals uid
          ⟨r.1, st.units.set i { u with locals := r.2, rest := rest }⟩

/-- Every observation point during a run is `execSchedule` of some finite
schedule of unit indices. -/
def execSchedule (env : RunEnv) (today : String) (st : SysState) (sched : List Nat) :
    SysState :=
  sched.foldl (stepSys env today) st

/-! ### Counter invariants -/

def statsLe (s : ProjectStats) : Prop := s.successful + s.failed ≤ s.processed

def statsEq (s : ProjectStats) : Prop := s.successful + s.failed = s.processed

/-- Invariant `successful + failed ≤ processed`, aggregate and per-project. -/
def countersLe (c : Campaign) : Prop :=
  c.successful + c.failed ≤ c.processed ∧ ∀ p ∈ c.projectStats, statsLe p.2

/-- Invariant `successful + failed = processed`, aggregate and per-project — the
spec's claimed invariant. -/
def countersEq (c : Campaign) : Prop :=
  c.successful + c.failed = c.processed ∧ ∀ p ∈ c.projectStats, statsEq p.2

instance (s : ProjectStats) : Decidable (statsLe s) := by
  unfold statsLe; infer_instance

instance (s : ProjectStats) : Decidable (statsEq s) := by
  unfold statsEq; infer_instance

instance (c : Campaign) : Decidable (countersLe c) := by
  unfold countersLe; infer_instance

instance (c : Campaign) : Decidable (countersEq c) := by
  unfold countersEq; infer_instance

/-- Full characterization of one loop iteration, assuming the stored
per-project stats coincide with the unit's locals (which every reachable
state satisfies). -/
theorem stepUid_char (env : RunEnv) (today pid : String)
    (ue : String → Option String) (g : Globals) (l : ProjectStats) (uid : String)
    (hstored : getAssoc pid g.campaign.projectStats = some l) :
    (stepUid env today pid ue g l uid).2 =
      ⟨l.processed + 1,
       l.successful + (if truthyStr (ue uid) = true ∧ env.sendOk pid ((ue uid).getD "") = true
         then 1 else 0),
       l.failed + (if truthyStr (ue uid) = true ∧ env.sendOk pid ((ue uid).getD "") = false
         then 1 else 0)⟩
    ∧ (stepUid env today pid ue g l uid).1.campaign.processed = g.campaign.processed + 1
    ∧ (stepUid env today pid ue g l uid).1.campaign.successful = g.campaign.successful +
        (if truthyStr (ue uid) = true ∧ env.sendOk pid ((ue uid).getD "") = true
          then 1 else 0)
    ∧ (stepUid env today pid ue g l uid).1.campaign.failed = g.campaign.failed +
        (if truthyStr (ue uid) = true ∧ env.sendOk pid ((ue uid).getD "") = false
          then 1 else 0)
    ∧ (stepUid env today pid ue g l uid).1.campaign.projectStats =
        setAssoc pid (stepUid env today pid ue g l uid).2 g.campaign.projectStats
    ∧ (stepUid env today pid ue g l uid).1.campaign.errors =
        (if truthyStr (ue uid) = true ∧ env.sendOk pid ((ue uid).getD "") = false
          then g.campaign.errors ++
            ["Failed to send to " ++ (ue uid).getD "" ++ ": " ++
              env.sendErr pid ((ue uid).getD "")]
          else g.campaign.errors)
    ∧ (stepUid env today pid ue g l uid).1.daily =
        (if truthyStr (ue uid) = true ∧ env.sendOk pid ((ue uid).getD "") = true
          then increment_daily_count today pid g.daily else g.daily)
    ∧ (stepUid env today pid ue g l uid).1.waits = g.waits ++ [150]
    ∧ (stepUid env today pid ue g l uid).1.campaign.status = g.campaign.status
    ∧ (stepUid env today pid ue g l uid).1.campaign.selectedUsers =
        g.campaign.selectedUsers := by
  unfold stepUid
  rw [hstored]
  cases htr : truthyStr (ue uid) with
  | false => simp [htr]
  | true =>
      cases hok : env.sendOk pid ((ue uid).getD "") with
      | false => simp [htr, hok]
      | true => simp [htr, hok]

/-! ### List helpers for the scheduling proofs -/

theorem getAssoc_mem {β : Type} {k : String} {v : β} :
    ∀ {l : List (String × β)}, getAssoc k l = some v → (k, v) ∈ l := by
  intro l
  induction l with
  | nil => intro h; simp [getAssoc] at h
  | cons hd tl ih =>
      intro h
      unfold getAssoc at h
      by_cases hk : hd.1 = k
      · rw [if_pos hk] at h
        injection h with h
        have hhd : hd = (k, v) := Prod.ext hk h
        rw [← hhd]
        exact List.mem_cons_self _ _
      · rw [if_neg hk] at h
        exact List.mem_cons_of_mem _ (ih h)

theorem list_nodup_get?_ne {α : Type} {l : List α} (h : l.Nodup) :
    ∀ {i j : Nat} {a b : α}, i ≠ j → l.get? i = some a → l.get? j = some b → a ≠ b := by
  induction l with
  | nil => intro i j a b _ hi; simp at hi
  | cons hd tl ih =>
      rcases List.nodup_cons.mp h with ⟨hmem, htl⟩
      intro i j a b hij hi hj
      match i, j with
      | 0, 0 => exact absurd rfl hij
      | 0, j+1 =>
          rw [List.get?_cons_zero] at hi
          rw [List.get?_cons_succ] at hj
          injection hi with hi
          intro hab
          apply hmem
          rw [hi, hab]
          exact List.get?_mem hj
      | i+1, 0 =>
          rw [List.get?_cons_zero] at hj
          rw [List.get?_cons_succ] at hi
          injection hj with hj
          intro hab
          apply hmem
          rw [hj, ← hab]
          exact List.get?_mem hi
      | i+1, j+1 =>
          rw [List.get?_cons_succ] at hi hj
          exact ih htl (fun hh => hij (congrArg Nat.succ hh)) hi hj

theorem list_set_get_self {α : Type} :
    ∀ (l : List α) (i : Nat) (a : α), l.get? i = some a → l.set i a = l := by
  intro l
  induction l with
  | nil => intro i a h; simp at h
  | cons hd tl ih =>
      intro i a h
      cases i with
      | zero =>
          rw [List.get?_cons_zero] at h
          injection h with h
          rw [List.set_cons_zero, h]
      | succ n =>
          rw [List.get?_cons_succ] at h
          rw [List.set_cons_succ, ih n a h]

theorem list_map_set {α β : Type} (f : α → β) :
    ∀ (l : List α) (i : Nat) (a : α), (l.set i a).map f = (l.map f).set i (f a) := by
  intro l
  induction l with
  | nil => intro i a; simp
  | cons hd tl ih =>
      intro i a
      cases i with
      | zero => simp
      | succ n => simp [ih]

theorem filterMap_map_sublist {α β γ : Type} (f : α → Option β) (gv : β → γ) (gk : α → γ)
    (h : ∀ a b, f a = some b → gv b = gk a) :
    ∀ l : List α, ((l.filterMap f).map gv).Sublist (l.map gk) := by
  intro l
  induction l with
  | nil => simp
  | cons hd tl ih =>
      cases hf : f hd with
      | none =>
          simp only [List.filterMap_cons, hf, List.map_cons]
          exact ih.cons (gk hd)
      | some b =>
          simp only [List.filterMap_cons, hf, List.map_cons]
          rw [h hd b hf]
          exact ih.cons₂ (gk hd)

theorem sf_sum (t ok : Bool) :
    ((if t = true ∧ ok = true then 1 else 0) : Nat) +
      (if t = true ∧ ok = false then 1 else 0) = if t = true then 1 else 0 := by
  cases t <;> cases ok <;> simp

/-! ### Reachable-state invariants -/

/-- Every in-flight unit's locals coincide with the stats stored for its
project: true at launch (both zero) and maintained because each iteration
ends by overwriting the stored stats with the locals (line 494). -/
def StoredLocals (st : SysState) : Prop :=
  ∀ i u, st.units.get? i = some u →
    getAssoc u.project_id st.g.campaign.projectStats = some u.locals

/-- Distinct units drive distinct projects (the `selectedUsers` dict has
one entry per project). -/
def Distinct (st : SysState) : Prop :=
  (st.units.map (·.project_id)).Nodup

def Inv (st : SysState) : Prop :=
  countersLe st.g.campaign ∧ StoredLocals st ∧ Distinct st

/-- Every identifier still pending in some unit resolves to a (truthy)
email address. -/
def AllRes (st : SysState) : Prop :=
  ∀ i u, st.units.get? i = some u →
    ∀ uid ∈ u.rest, truthyStr (u.user_emails uid) = true

theorem stepSys_none (env : RunEnv) (today : String) (st : SysState) (i : Nat)
    (h : st.units.get? i = none) : stepSys env today st i = st := by
  unfold stepSys
  rw [h]

theorem stepSys_exhausted (env : RunEnv) (today : String) (st : SysState) (i : Nat)
    (u : UnitRun) (h : st.units.get? i = some u) (hr : u.rest = []) :
    stepSys env today st i = st := by
  unfold stepSys
  rw [h]
  dsimp only
  rw [hr]

theorem stepSys_active (env : RunEnv) (today : String) (st : SysState) (i : Nat)
    (u : UnitRun) (uid : String) (rest : List String)
    (h : st.units.get? i = some u) (hr : u.rest = uid :: rest) :
    stepSys env today st i =
      ⟨(stepUid env today u.project_id u.user_emails st.g u.locals uid).1,
       st.units.set i
         { u with locals := (stepUid env today u.project_id u.user_emails st.g u.locals uid).2,
                  rest := rest }⟩ := by
  unfold stepSys
  rw [h]
  dsimp only
  rw [hr]

theorem stepSys_inv (env : RunEnv) (today : String) (st : SysState) (i : Nat)
    (h : Inv st) : Inv (stepSys env today st i) := by
  obtain ⟨hle, hsl, hdi⟩ := h
  cases hi : st.units.get? i with
  | none => rw [stepSys_none env today st i hi]; exact ⟨hle, hsl, hdi⟩
  | some u =>
      cases hrest : u.rest with
      | nil => rw [stepSys_exhausted env today st i u hi hrest]; exact ⟨hle, hsl, hdi⟩
      | cons uid rest =>
          rw [stepSys_active env today st i u uid rest hi hrest]
          have hstored := hsl i u hi
          obtain ⟨hloc, hproc, hsucc, hfail, hstats, _herr, _hdaily, _hw, _hs, _hsel⟩ :=
            stepUid_char env today u.project_id u.user_emails st.g u.locals uid hstored
          have hsfLe : ((if truthyStr (u.user_emails uid) = true ∧
                env.sendOk u.project_id ((u.user_emails uid).getD "") = true then 1 else 0) : Nat) +
              (if truthyStr (u.user_emails uid) = true ∧
                env.sendOk u.project_id ((u.user_emails uid).getD "") = false then 1 else 0) ≤ 1 := by
            cases h1 : truthyStr (u.user_emails uid) <;>
              cases h2 : env.sendOk u.project_id ((u.user_emails uid).getD "") <;>
              simp [h1, h2]
          have hlLe : statsLe u.locals := hle.2 _ (getAssoc_mem hstored)
          have hrLe : statsLe (stepUid env today u.project_id u.user_emails st.g u.locals uid).2 := by
            rw [hloc]
            unfold statsLe at hlLe ⊢
            dsimp only
            omega
          refine ⟨⟨?_, ?_⟩, ?_, ?_⟩
          · dsimp only
            rw [hproc, hsucc, hfail]
            have := hle.1
            omega
          · dsimp only
            rw [hstats]
            intro p hp
            rcases mem_setAssoc _ _ _ p hp with hpe | hpm
            · rw [hpe]
              exact hrLe
            · exact hle.2 p hpm
          · intro j v hj
            dsimp only at hj ⊢
            rw [hstats]
            by_cases hji : j = i
            · subst hji
              rw [List.get?_set_eq] at hj
              rw [hi] at hj
              simp at hj
              rw [← hj]
              dsimp only
              exact getAssoc_setAssoc_same _ _ _
            · rw [List.get?_set_ne _ _ (fun hh => hji hh.symm)] at hj
              have hne : v.project_id ≠ u.project_id :=
                list_nodup_get?_ne hdi hji
                  (by rw [List.get?_map, hj]; rfl) (by rw [List.get?_map, hi]; rfl)
              rw [getAssoc_setAssoc_other _ _ _ _ hne]
              exact hsl j v hj
          · unfold Distinct at hdi ⊢
            dsimp only
            rw [list_map_set, list_set_get_self]
            · exact hdi
            · rw [List.get?_map, hi]
              rfl

theorem stepSys_eq (env : RunEnv) (today : String) (st : SysState) (i : Nat)
    (h : Inv st) (ha : AllRes st) (he : countersEq st.g.campaign) :
    AllRes (stepSys env today st i) ∧ countersEq (stepSys env today st i).g.campaign := by
  obtain ⟨hle, hsl, hdi⟩ := h
  cases hi : st.units.get? i with
  | none => rw [stepSys_none env today st i hi]; exact ⟨ha, he⟩
  | some u =>
      cases hrest : u.rest with
      | nil => rw [stepSys_exhausted env today st i u hi hrest]; exact ⟨ha, he⟩
      | cons uid rest =>
          rw [stepSys_active env today st i u uid rest hi hrest]
          have hstored := hsl i u hi
          obtain ⟨hloc, hproc, hsucc, hfail, hstats, _herr, _hdaily, _hw, _hs, _hsel⟩ :=
            stepUid_char env today u.project_id u.user_emails st.g u.locals uid hstored
          have htr : truthyStr (u.user_emails uid) = true :=
            ha i u hi uid (by rw [hrest]; exact List.mem_cons_self _ _)
          have hsum : ((if truthyStr (u.user_emails uid) = true ∧
                env.sendOk u.project_id ((u.user_emails uid).getD "") = true then 1 else 0) : Nat) +
              (if truthyStr (u.user_emails uid) = true ∧
                env.sendOk u.project_id ((u.user_emails uid).getD "") = false then 1 else 0) = 1 := by
            rw [htr]
            cases h2 : env.sendOk u.project_id ((u.user_emails uid).getD "") <;> simp [h2]
          have hlEq : statsEq u.locals := he.2 _ (getAssoc_mem hstored)
          have hrEq : statsEq (stepUid env today u.project_id u.user_emails st.g u.locals uid).2 := by
            rw [hloc]
            unfold statsEq at hlEq ⊢
            dsimp only
            omega
          constructor
          · intro j v hj
            dsimp only at hj
            by_cases hji : j = i
            · subst hji
              rw [List.get?_set_eq] at hj
              rw [hi] at hj
              simp at hj
              rw [← hj]
              dsimp only
              intro uid' huid'
              exact ha j u hi uid' (by rw [hrest]; exact List.mem_cons_of_mem _ huid')
            · rw [List.get?_set_ne _ _ (fun hh => hji hh.symm)] at hj
              exact ha j v hj
          · refine ⟨?_, ?_⟩
            · dsimp only
              rw [hproc, hsucc, hfail]
              have := he.1
              omega
            · dsimp only
              rw [hstats]
              intro p hp
              rcases mem_setAssoc _ _ _ p hp with hpe | hpm
              · rw [hpe]
                exact hrEq
              · exact he.2 p hpm

theorem execSchedule_inv (env : RunEnv) (today : String) (sched : List Nat) :
    ∀ st : SysState, Inv st → Inv (execSchedule env today st sched) := by
  induction sched with
  | nil => intro st h; exact h
  | cons i rest ih =>
      intro st h
      exact ih _ (stepSys_inv env today st i h)

theorem execSchedule_eq (env : RunEnv) (today : String) (sched : List Nat) :
    ∀ st : SysState, Inv st → AllRes st → countersEq st.g.campaign →
      countersEq (execSchedule env today st sched).g.campaign := by
  induction sched with
  | nil => intro st _ _ he; exact he
  | cons i rest ih =>
      intro st h ha he
      obtain ⟨ha', he'⟩ := stepSys_eq env today st i h ha he
      exact ih _ (stepSys_inv env today st i h) ha' he'

/-- A campaign as `create_campaign` hands it to the scheduler: zero
counters, zeroed stats covering every `selectedUsers` key, and (a Python
dict's) pairwise-distinct keys. -/
def freshCampaign (c : Campaign) : Prop :=
  c.processed = 0 ∧ c.successful = 0 ∧ c.failed = 0
  ∧ (∀ p ∈ c.projectStats, p.2 = (⟨0, 0, 0⟩ : ProjectStats))
  ∧ (∀ pu ∈ c.selectedUsers, getAssoc pu.1 c.projectStats = some ⟨0, 0, 0⟩)
  ∧ (c.selectedUsers.map (·.1)).Nodup

instance (c : Campaign) : Decidable (freshCampaign c) := by
  unfold freshCampaign; infer_instance

/-- Every targeted identifier of the listed units resolves to a truthy
email address. -/
def allResolvableSel (env : RunEnv) (sel : List (String × List String)) : Prop :=
  ∀ pu ∈ sel, ∀ ue, env.directory pu.1 = some ue →
    ∀ uid ∈ pu.2, truthyStr (ue uid) = true

def allResolvable (env : RunEnv) (c : Campaign) : Prop :=
  allResolvableSel env c.selectedUsers

theorem initSys_unit_src (env : RunEnv) (c : Campaign) (daily : DailyCounts)
    {i : Nat} {u : UnitRun} (hi : (initSys env c daily).units.get? i = some u) :
    ∃ pu ∈ c.selectedUsers, ∃ ue, pu.1 ∈ env.known ∧ env.directory pu.1 = some ue ∧
      u = ⟨pu.1, ue, ⟨0, 0, 0⟩, pu.2⟩ := by
  have hmem : u ∈ (initSys env c daily).units := List.get?_mem hi
  unfold initSys at hmem
  dsimp only at hmem
  rw [List.mem_filterMap] at hmem
  rcases hmem with ⟨pu, hpu, hf⟩
  by_cases hk : pu.1 ∈ env.known
  · rw [if_pos hk] at hf
    rcases Option.map_eq_some'.mp hf with ⟨ue, hdir, hu⟩
    exact ⟨pu, hpu, ue, hk, hdir, hu.symm⟩
  · rw [if_neg hk] at hf
    simp at hf

theorem freshCampaign_countersLe {c : Campaign} (h : freshCampaign c) : countersLe c := by
  obtain ⟨hp, hs, hf, hzero, _, _⟩ := h
  constructor
  · rw [hp, hs, hf]
  · intro p hp'
    rw [statsLe, hzero p hp']
    decide

theorem freshCampaign_countersEq {c : Campaign} (h : freshCampaign c) : countersEq c := by
  obtain ⟨hp, hs, hf, hzero, _, _⟩ := h
  constructor
  · rw [hp, hs, hf]
  · intro p hp'
    rw [statsEq, hzero p hp']
    decide

theorem initSys_inv (env : RunEnv) (c : Campaign) (daily : DailyCounts)
    (h : freshCampaign c) : Inv (initSys env c daily) := by
  refine ⟨freshCampaign_countersLe h, ?_, ?_⟩
  · intro i u hi
    rcases initSys_unit_src env c daily hi with ⟨pu, hpu, ue, _, _, hu⟩
    rw [hu]
    exact h.2.2.2.2.1 pu hpu
  · unfold Distinct initSys
    dsimp only
    have hsub := filterMap_map_sublist
      (fun pu : String × List String =>
        if pu.1 ∈ env.known then
          (env.directory pu.1).map
            (fun ue => (⟨pu.1, ue, ⟨0, 0, 0⟩, pu.2⟩ : UnitRun))
        else none)
      (·.project_id) (·.1) ?_ c.selectedUsers
    · exact List.Nodup.sublist hsub h.2.2.2.2.2
    · intro a b hf
      dsimp only at hf ⊢
      by_cases hk : a.1 ∈ env.known
      · rw [if_pos hk] at hf
        rcases Option.map_eq_some'.mp hf with ⟨ue, _, hu⟩
        rw [← hu]
      · rw [if_neg hk] at hf
        simp at hf

theorem initSys_allRes (env : RunEnv) (c : Campaign) (daily : DailyCounts)
    (h : allResolvable env c) : AllRes (initSys env c daily) := by
  intro i u hi
  rcases initSys_unit_src env c daily hi with ⟨pu, hpu, ue, _, hdir, hu⟩
  rw [hu]
  intro uid huid
  exact h pu hpu ue hdir uid huid

/-! ### The sequential runner preserves the same invariants -/

theorem stepUid_le (env : RunEnv) (today pid : String) (ue : String → Option String)
    (g : Globals) (l : ProjectStats) (uid : String)
    (hst : getAssoc pid g.campaign.projectStats = some l)
    (hle : countersLe g.campaign) (hl : statsLe l) :
    countersLe (stepUid env today pid ue g l uid).1.campaign
    ∧ statsLe (stepUid env today pid ue g l uid).2 := by
  obtain ⟨hloc, hproc, hsucc, hfail, hstats, _, _, _, _, _⟩ :=
    stepUid_char env today pid ue g l uid hst
  have hsfLe : ((if truthyStr (ue uid) = true ∧ env.sendOk pid ((ue uid).getD "") = true
        then 1 else 0) : Nat) +
      (if truthyStr (ue uid) = true ∧ env.sendOk pid ((ue uid).getD "") = false
        then 1 else 0) ≤ 1 := by
    cases h1 : truthyStr (ue uid) <;> cases h2 : env.sendOk pid ((ue uid).getD "") <;>
      simp [h1, h2]
  have hrl : statsLe (stepUid env today pid ue g l uid).2 := by
    rw [hloc]
    unfold statsLe at hl ⊢
    dsimp only
    omega
  refine ⟨⟨?_, ?_⟩, hrl⟩
  · rw [hproc, hsucc, hfail]
    have := hle.1
    omega
  · rw [hstats]
    intro p hp
    rcases mem_setAssoc _ _ _ p hp with hpe | hpm
    · rw [hpe]
      exact hrl
    · exact hle.2 p hpm

theorem stepUid_eq_mode (env : RunEnv) (today pid : String) (ue : String → Option String)
    (g : Globals) (l : ProjectStats) (uid : String)
    (hst : getAssoc pid g.campaign.projectStats = some l)
    (he : countersEq g.campaign) (hl : statsEq l)
    (htr : truthyStr (ue uid) = true) :
    countersEq (stepUid env today pid ue g l uid).1.campaign
    ∧ statsEq (stepUid env today pid ue g l uid).2 := by
  obtain ⟨hloc, hproc, hsucc, hfail, hstats, _, _, _, _, _⟩ :=
    stepUid_char env today pid ue g l uid hst
  have hsum : ((if truthyStr (ue uid) = true ∧ env.sendOk pid ((ue uid).getD "") = true
        then 1 else 0) : Nat) +
      (if truthyStr (ue uid) = true ∧ env.sendOk pid ((ue uid).getD "") = false
        then 1 else 0) = 1 := by
    rw [htr]
    cases h2 : env.sendOk pid ((ue uid).getD "") <;> simp [h2]
  have hre : statsEq (stepUid env today pid ue g l uid).2 := by
    rw [hloc]
    unfold statsEq at hl ⊢
    dsimp only
    omega
  refine ⟨⟨?_, ?_⟩, hre⟩
  · rw [hproc, hsucc, hfail]
    have := he.1
    omega
  · rw [hstats]
    intro p hp
    rcases mem_setAssoc _ _ _ p hp with hpe | hpm
    · rw [hpe]
      exact hre
    · exact he.2 p hpm

theorem unitFold_char (env : RunEnv) (today pid : String) (ue : String → Option String)
    (uids : List String) :
    ∀ (g : Globals) (l : ProjectStats),
      getAssoc pid g.campaign.projectStats = some l →
      getAssoc pid
          ((uids.foldl (fun p uid => stepUid env today pid ue p.1 p.2 uid)
            (g, l)).1).campaign.projectStats =
        some (uids.foldl (fun p uid => stepUid env today pid ue p.1 p.2 uid) (g, l)).2
      ∧ (∀ q, q ≠ pid →
          getAssoc q
              ((uids.foldl (fun p uid => stepUid env today pid ue p.1 p.2 uid)
                (g, l)).1).campaign.projectStats =
            getAssoc q g.campaign.projectStats)
      ∧ (countersLe g.campaign → statsLe l →
          countersLe ((uids.foldl (fun p uid => stepUid env today pid ue p.1 p.2 uid)
            (g, l)).1).campaign)
      ∧ (countersEq g.campaign → statsEq l →
          (∀ uid ∈ uids, truthyStr (ue uid) = true) →
          countersEq ((uids.foldl (fun p uid => stepUid env today pid ue p.1 p.2 uid)
            (g, l)).1).campaign) := by
  induction uids with
  | nil =>
      intro g l hst
      exact ⟨hst, fun q hq => rfl, fun hle _ => hle, fun he _ _ => he⟩
  | cons uid rest ih =>
      intro g l hst
      obtain ⟨hloc, hproc, hsucc, hfail, hstats, _, _, _, _, _⟩ :=
        stepUid_char env today pid ue g l uid hst
      have hst' : getAssoc pid
          (stepUid env today pid ue g l uid).1.campaign.projectStats =
          some (stepUid env today pid ue g l uid).2 := by
        rw [hstats]
        exact getAssoc_setAssoc_same _ _ _
      obtain ⟨ihst, ihframe, ihle, iheq⟩ :=
        ih (stepUid env today pid ue g l uid).1 (stepUid env today pid ue g l uid).2 hst'
      rw [List.foldl_cons]
      refine ⟨ihst, ?_, ?_, ?_⟩
      · intro q hq
        rw [ihframe q hq, hstats, getAssoc_setAssoc_other _ _ _ _ hq]
      · intro hle hl
        obtain ⟨hle', hl'⟩ := stepUid_le env today pid ue g l uid hst hle hl
        exact ihle hle' hl'
      · intro he hl hall
        obtain ⟨he', hl'⟩ := stepUid_eq_mode env today pid ue g l uid hst he hl
          (hall uid (List.mem_cons_self _ _))
        exact iheq he' hl' (fun v hv => hall v (List.mem_cons_of_mem _ hv))

theorem runUnit_char (env : RunEnv) (today : String) (g : Globals) (pid : String)
    (uids : List String)
    (hst : getAssoc pid g.campaign.projectStats = some ⟨0, 0, 0⟩) :
    (∀ q, q ≠ pid →
      getAssoc q (runUnit env today g pid uids).campaign.projectStats =
        getAssoc q g.campaign.projectStats)
    ∧ (countersLe g.campaign → countersLe (runUnit env today g pid uids).campaign)
    ∧ (countersEq g.campaign →
        (∀ ue, env.directory pid = some ue → ∀ uid ∈ uids, truthyStr (ue uid) = true) →
        countersEq (runUnit env today g pid uids).campaign) := by
  unfold runUnit
  by_cases hk : pid ∈ env.known
  · rw [if_pos hk]
    cases hdir : env.directory pid with
    | none => exact ⟨fun q hq => rfl, fun hle => hle, fun he _ => he⟩
    | some ue =>
        obtain ⟨_, hframe, hLe, hEq⟩ := unitFold_char env today pid ue uids g ⟨0, 0, 0⟩ hst
        refine ⟨hframe, fun hle => hLe hle (by decide), ?_⟩
        intro he hall
        exact hEq he (by decide) (hall ue rfl)
  · rw [if_neg hk]
    exact ⟨fun q hq => rfl, fun hle => hle, fun he _ => he⟩

theorem seqFold_char (env : RunEnv) (today : String) :
    ∀ (sel : List (String × List String)) (g : Globals),
      (∀ pu ∈ sel, getAssoc pu.1 g.campaign.projectStats = some ⟨0, 0, 0⟩) →
      (sel.map (·.1)).Nodup →
      (countersLe g.campaign →
        countersLe ((sel.foldl (fun g pu => runUnit env today g pu.1 pu.2) g)).campaign)
      ∧ (countersEq g.campaign → allResolvableSel env sel →
        countersEq ((sel.foldl (fun g pu => runUnit env today g pu.1 pu.2) g)).campaign) := by
  intro sel
  induction sel with
  | nil => exact fun g _ _ => ⟨fun hle => hle, fun he _ => he⟩
  | cons pu rest ih =>
      intro g hz hnd
      rw [List.map_cons, List.nodup_cons] at hnd
      obtain ⟨hframe, hLe, hEq⟩ :=
        runUnit_char env today g pu.1 pu.2 (hz pu (List.mem_cons_self _ _))
      have hz' : ∀ pu' ∈ rest,
          getAssoc pu'.1 (runUnit env today g pu.1 pu.2).campaign.projectStats =
            some ⟨0, 0, 0⟩ := by
        intro pu' hpu'
        have hne : pu'.1 ≠ pu.1 := by
          intro hh
          exact hnd.1 (hh ▸ List.mem_map_of_mem (·.1) hpu')
        rw [hframe pu'.1 hne]
        exact hz pu' (List.mem_cons_of_mem _ hpu')
      obtain ⟨ihLe, ihEq⟩ := ih (runUnit env today g pu.1 pu.2) hz' hnd.2
      rw [List.foldl_cons]
      constructor
      · intro hle
        exact ihLe (hLe hle)
      · intro he hall
        refine ihEq (hEq he (fun ue hdir => hall pu (List.mem_cons_self _ _) ue hdir)) ?_
        intro pu' hpu' ue hdir uid huid
        exact hall pu' (List.mem_cons_of_mem _ hpu') ue hdir uid huid

theorem run_parallel_campaign_counters (env : RunEnv) (today : String) (now : Nat)
    (c : Campaign) (daily : DailyCounts) (hfresh : freshCampaign c) :
    countersLe (run_parallel_campaign env today now c daily).campaign
    ∧ (allResolvable env c →
        countersEq (run_parallel_campaign env today now c daily).campaign) := by
  obtain ⟨hLe, hEq⟩ := seqFold_char env today c.selectedUsers ⟨c, daily, []⟩
    hfresh.2.2.2.2.1 hfresh.2.2.2.2.2
  unfold run_parallel_campaign
  exact ⟨hLe (freshCampaign_countersLe hfresh),
         fun hall => hEq (freshCampaign_countersEq hfresh) hall⟩

/-! ### Concrete scenarios -/

/-- One known project `"p"`; the directory query succeeds; only `"u1"`
resolves; every send succeeds. -/
def envResolveOne : RunEnv :=
  { known := ["p"]
    directory := fun pid =>
      if pid = "p" then
        some (fun uid => if uid = "u1" then some "u1@mail.test" else none)
      else none
    getUser := fun _ _ => none
    sendOk := fun _ _ => true
    sendErr := fun _ _ => "error" }

/-- One known project `"p"`; the directory query succeeds but resolves no
identifier at all. -/
def envResolveNone : RunEnv :=
  { known := ["p"]
    directory := fun pid => if pid = "p" then some (fun _ => none) else none
    getUser := fun _ _ => none
    sendOk := fun _ _ => true
    sendErr := fun _ _ => "error" }

/-- One known project `"p"` whose directory query always raises. -/
def envDirDown : RunEnv :=
  { known := ["p"]
    directory := fun _ => none
    getUser := fun _ _ => none
    sendOk := fun _ _ => true
    sendErr := fun _ _ => "error" }

/-- The C2 scenario campaign: one project, two target identifiers. -/
def campaignTwoUsers : Campaign :=
  { sampleCampaign with selectedUsers := [("p", ["u1", "u2"])] }

/-- C1 counterexample: with one targeted identifier that the directory
does not resolve, the completed run reports `processed = 1` while
`successful = failed = 0`, so `processed = successful + failed` fails both
for the aggregate and for the per-project sub-record. -/
theorem C1_counterexample :
    (run_parallel_campaign envResolveNone "2026-10-11" 9 sampleCampaign
        (fun _ => none)).campaign.processed = 1
    ∧ (run_parallel_campaign envResolveNone "2026-10-11" 9 sampleCampaign
        (fun _ => none)).campaign.successful = 0
    ∧ (run_parallel_campaign envResolveNone "2026-10-11" 9 sampleCampaign
        (fun _ => none)).campaign.failed = 0
    ∧ getAssoc "p" (run_parallel_campaign envResolveNone "2026-10-11" 9 sampleCampaign
        (fun _ => none)).campaign.projectStats = some ⟨1, 0, 0⟩
    ∧ ¬ countersEq (run_parallel_campaign envResolveNone "2026-10-11" 9 sampleCampaign
        (fun _ => none)).campaign := by
  decide

/-- C1 (amended): at every observation point of every schedule, and at
the end of the sequential run, `successful + failed ≤ processed` holds
for the aggregate and every per-project sub-record; the deficit is the
identifiers processed without a resolvable address, so when every
targeted identifier resolves the claimed equality
`processed = successful + failed` does hold throughout. -/
theorem C1_counters_invariant_amended (env : RunEnv) (today : String) (now : Nat)
    (c : Campaign) (daily : DailyCounts) (sched : List Nat)
    (hfresh : freshCampaign c) :
    (countersLe (execSchedule env today (initSys env c daily) sched).g.campaign
      ∧ countersLe (run_parallel_campaign env today now c daily).campaign)
    ∧ (allResolvable env c →
        countersEq (execSchedule env today (initSys env c daily) sched).g.campaign
        ∧ countersEq (run_parallel_campaign env today now c daily).campaign) := by
  have hinv := execSchedule_inv env today sched (initSys env c daily)
    (initSys_inv env c daily hfresh)
  obtain ⟨hrLe, hrEq⟩ := run_parallel_campaign_counters env today now c daily hfresh
  refine ⟨⟨hinv.1, hrLe⟩, ?_⟩
  intro hall
  exact ⟨execSchedule_eq env today sched (initSys env c daily)
      (initSys_inv env c daily hfresh) (initSys_allRes env c daily hall)
      (freshCampaign_countersEq hfresh),
    hrEq hall⟩

theorem C1_witness :
    freshCampaign sampleCampaign
    ∧ countersLe (execSchedule envResolveOne "2026-10-11"
        (initSys envResolveOne sampleCampaign (fun _ => none)) [0, 0]).g.campaign
    ∧ countersEq (run_parallel_campaign envResolveOne "2026-10-11" 9 sampleCampaign
        (fun _ => none)).campaign := by
  have hall : allResolvable envResolveOne sampleCampaign := by
    intro pu hpu ue hue uid huid
    have hpu' : pu = ("p", ["u1"]) := by simpa [sampleCampaign] using hpu
    subst hpu'
    simp only [envResolveOne, sampleCampaign] at hue
    rw [if_pos trivial] at hue
    injection hue with hue
    have huid' : uid = "u1" := by simpa using huid
    subst huid'
    rw [← hue]
    decide
  refine ⟨by decide, ?_, ?_⟩
  · exact ((C1_counters_invariant_amended envResolveOne "2026-10-11" 9 sampleCampaign
      (fun _ => none) [0, 0] (by decide)).1).1
  · exact (((C1_counters_invariant_amended envResolveOne "2026-10-11" 9 sampleCampaign
      (fun _ => none) [0, 0] (by decide)).2) hall).2

/-- C2 counterexample: the spec's scenario (one project, `"u1"` resolves
and its send succeeds, `"u2"` does not resolve) ends with
`processed = 2`, not the claimed `processed = 1`: the unresolved
identifier is counted in `processed`. -/
theorem C2_counterexample :
    (run_parallel_campaign envResolveOne "2026-10-11" 9 campaignTwoUsers
        (fun _ => none)).campaign.processed = 2
    ∧ (run_parallel_campaign envResolveOne "2026-10-11" 9 campaignTwoUsers
        (fun _ => none)).campaign.successful = 1
    ∧ (run_parallel_campaign envResolveOne "2026-10-11" 9 campaignTwoUsers
        (fun _ => none)).campaign.failed = 0
    ∧ ¬ ((run_parallel_campaign envResolveOne "2026-10-11" 9 campaignTwoUsers
        (fun _ => none)).campaign.processed = 1) := by
  decide

/-- C2 (amended): an identifier with no resolvable address is skipped by
the send attempt and counted as neither success nor failure, but it still
increments `processed` by one (aggregate and per-project), leaving
`successful`, `failed`, the error list and the Quota Ledger untouched;
the spec's scenario hence ends with `processed = 2, successful = 1,
failed = 0` and one quota increment. -/
theorem C2_unresolved_increments_processed (env : RunEnv) (today pid : String)
    (ue : String → Option String) (g : Globals) (l : ProjectStats) (uid : String)
    (hst : getAssoc pid g.campaign.projectStats = some l)
    (hun : truthyStr (ue uid) = false) :
    ((stepUid env today pid ue g l uid).1.campaign.processed = g.campaign.processed + 1
      ∧ (stepUid env today pid ue g l uid).1.campaign.successful = g.campaign.successful
      ∧ (stepUid env today pid ue g l uid).1.campaign.failed = g.campaign.failed
      ∧ (stepUid env today pid ue g l uid).1.campaign.errors = g.campaign.errors
      ∧ (stepUid env today pid ue g l uid).1.daily = g.daily
      ∧ (stepUid env today pid ue g l uid).2 =
          ⟨l.processed + 1, l.successful, l.failed⟩)
    ∧ ((run_parallel_campaign envResolveOne "2026-10-11" 9 campaignTwoUsers
          (fun _ => none)).campaign.processed = 2
      ∧ (run_parallel_campaign envResolveOne "2026-10-11" 9 campaignTwoUsers
          (fun _ => none)).campaign.successful = 1
      ∧ (run_parallel_campaign envResolveOne "2026-10-11" 9 campaignTwoUsers
          (fun _ => none)).campaign.failed = 0
      ∧ getAssoc "p" (run_parallel_campaign envResolveOne "2026-10-11" 9 campaignTwoUsers
          (fun _ => none)).campaign.projectStats = some ⟨2, 1, 0⟩
      ∧ (run_parallel_campaign envResolveOne "2026-10-11" 9 campaignTwoUsers
          (fun _ => none)).daily (dailyKey "p" "2026-10-11") =
            some ⟨"p", "2026-10-11", 1⟩) := by
  obtain ⟨hloc, hproc, hsucc, hfail, hstats, herr, hdaily, _, _, _⟩ :=
    stepUid_char env today pid ue g l uid hst
  refine ⟨⟨hproc, ?_, ?_, ?_, ?_, ?_⟩, by decide⟩
  · rw [hsucc]
    simp [hun]
  · rw [hfail]
    simp [hun]
  · rw [herr]
    simp [hun]
  · rw [hdaily]
    simp [hun]
  · rw [hloc]
    simp [hun]

theorem C2_witness :
    (stepUid envResolveOne "2026-10-11" "p"
        (fun uid => if uid = "u1" then some "u1@mail.test" else none)
        ⟨sampleCampaign, fun _ => none, []⟩ ⟨0, 0, 0⟩ "u2").1.campaign.processed =
      sampleCampaign.processed + 1 :=
  (C2_unresolved_increments_processed envResolveOne "2026-10-11" "p"
    (fun uid => if uid = "u1" then some "u1@mail.test" else none)
    ⟨sampleCampaign, fun _ => none, []⟩ ⟨0, 0, 0⟩ "u2" (by decide) (by decide)).1.1

theorem runUnit_noop_notKnown (env : RunEnv) (today : String) (g : Globals)
    (pid : String) (uids : List String) (h : pid ∉ env.known) :
    runUnit env today g pid uids = g := by
  unfold runUnit
  rw [if_neg h]

theorem runUnit_noop_dirFail (env : RunEnv) (today : String) (g : Globals)
    (pid : String) (uids : List String) (h : env.directory pid = none) :
    runUnit env today g pid uids = g := by
  unfold runUnit
  by_cases hk : pid ∈ env.known
  · rw [if_pos hk, h]
  · rw [if_neg hk]

theorem unitFold_unresolved (env : RunEnv) (today pid : String)
    (ue : String → Option String) (uids : List String) :
    ∀ (g : Globals) (l : ProjectStats),
      getAssoc pid g.campaign.projectStats = some l →
      (∀ uid ∈ uids, truthyStr (ue uid) = false) →
      ((uids.foldl (fun p uid => stepUid env today pid ue p.1 p.2 uid)
          (g, l)).1).campaign.processed = g.campaign.processed + uids.length
      ∧ ((uids.foldl (fun p uid => stepUid env today pid ue p.1 p.2 uid)
          (g, l)).1).campaign.successful = g.campaign.successful
      ∧ ((uids.foldl (fun p uid => stepUid env today pid ue p.1 p.2 uid)
          (g, l)).1).campaign.failed = g.campaign.failed
      ∧ ((uids.foldl (fun p uid => stepUid env today pid ue p.1 p.2 uid)
          (g, l)).1).campaign.errors = g.campaign.errors
      ∧ ((uids.foldl (fun p uid => stepUid env today pid ue p.1 p.2 uid)
          (g, l)).1).daily = g.daily
      ∧ (uids.foldl (fun p uid => stepUid env today pid ue p.1 p.2 uid) (g, l)).2 =
          ⟨l.processed + uids.length, l.successful, l.failed⟩ := by
  induction uids with
  | nil =>
      intro g l hst _
      refine ⟨rfl, rfl, rfl, rfl, rfl, ?_⟩
      simp
  | cons uid rest ih =>
      intro g l hst hall
      obtain ⟨hstep, hscn⟩ := C2_unresolved_increments_processed env today pid ue g l uid
        hst (hall uid (List.mem_cons_self _ _))
      obtain ⟨hproc, hsucc, hfail, herr, hdaily, hloc⟩ := hstep
      have hst' : getAssoc pid
          (stepUid env today pid ue g l uid).1.campaign.projectStats =
          some (stepUid env today pid ue g l uid).2 := by
        rw [(stepUid_char env today pid ue g l uid hst).2.2.2.2.1]
        exact getAssoc_setAssoc_same _ _ _
      obtain ⟨iproc, isucc, ifail, ierr, idaily, iloc⟩ :=
        ih (stepUid env today pid ue g l uid).1 (stepUid env today pid ue g l uid).2 hst'
          (fun v hv => hall v (List.mem_cons_of_mem _ hv))
      rw [List.foldl_cons]
      refine ⟨?_, ?_, ?_, ?_, ?_, ?_⟩
      · rw [iproc, hproc, List.length_cons]
        omega
      · rw [isucc, hsucc]
      · rw [ifail, hfail]
      · rw [ierr, herr]
      · rw [idaily, hdaily]
      · rw [iloc, hloc]
        simp only [List.length_cons]
        congr 1
        omega

/-- C8 counterexample: a unit whose directory query succeeds but where
every identifier fails resolution does not abort with untouched counters:
it still increments `processed` once per identifier (here to 2) in both
the aggregate and the per-project sub-record — only the Quota Ledger is
left unmodified. -/
theorem C8_counterexample :
    (run_parallel_campaign envResolveNone "2026-10-11" 9 campaignTwoUsers
        (fun _ => none)).campaign.processed = 2
    ∧ getAssoc "p" (run_parallel_campaign envResolveNone "2026-10-11" 9 campaignTwoUsers
        (fun _ => none)).campaign.projectStats = some ⟨2, 0, 0⟩
    ∧ (run_parallel_campaign envResolveNone "2026-10-11" 9 campaignTwoUsers
        (fun _ => none)).daily (dailyKey "p" "2026-10-11") = none
    ∧ ¬ ((run_parallel_campaign envResolveNone "2026-10-11" 9 campaignTwoUsers
        (fun _ => none)).campaign.processed = 0) := by
  decide

/-- C8 (amended): a unit whose directory query itself raises (or whose
project is unregistered) is a complete no-op — no counters, no errors, no
quota — and dropping all such units leaves the run's outcome unchanged,
so units for other projects are unaffected.  A unit whose query succeeds
but where no identifier resolves does not abort: it increments
`processed` once per identifier (aggregate and per-project) while
`successful`, `failed`, the error list and the Quota Ledger stay
untouched. -/
theorem C8_total_resolution_failure (env : RunEnv) (today : String) :
    (∀ (g : Globals) (pid : String) (uids : List String),
      env.directory pid = none → runUnit env today g pid uids = g)
    ∧ (∀ (g : Globals) (pid : String) (uids : List String),
      pid ∉ env.known → runUnit env today g pid uids = g)
    ∧ (∀ (sel : List (String × List String)) (g : Globals),
        sel.foldl (fun g pu => runUnit env today g pu.1 pu.2) g =
          (sel.filter (fun pu =>
            decide (pu.1 ∈ env.known) && (env.directory pu.1).isSome)).foldl
            (fun g pu => runUnit env today g pu.1 pu.2) g)
    ∧ (∀ (g : Globals) (pid : String) (uids : List String)
        (ue : String → Option String),
        pid ∈ env.known → env.directory pid = some ue →
        getAssoc pid g.campaign.projectStats = some ⟨0, 0, 0⟩ →
        (∀ uid ∈ uids, truthyStr (ue uid) = false) →
        (runUnit env today g pid uids).campaign.processed =
            g.campaign.processed + uids.length
        ∧ (runUnit env today g pid uids).campaign.successful = g.campaign.successful
        ∧ (runUnit env today g pid uids).campaign.failed = g.campaign.failed
        ∧ (runUnit env today g pid uids).campaign.errors = g.campaign.errors
        ∧ (runUnit env today g pid uids).daily = g.daily
        ∧ getAssoc pid (runUnit env today g pid uids).campaign.projectStats =
            some ⟨uids.length, 0, 0⟩) := by
  refine ⟨fun g pid uids h => runUnit_noop_dirFail env today g pid uids h,
          fun g pid uids h => runUnit_noop_notKnown env today g pid uids h,
          ?_, ?_⟩
  · intro sel
    induction sel with
    | nil => intro g; rfl
    | cons pu rest ih =>
        intro g
        rw [List.foldl_cons, List.filter_cons]
        by_cases hk : pu.1 ∈ env.known
        · cases hdir : env.directory pu.1 with
          | none =>
              rw [runUnit_noop_dirFail env today g pu.1 pu.2 hdir]
              simp only [hk, hdir, decide_True, Option.isSome_none, Bool.and_false,
                Bool.false_eq_true, if_false]
              exact ih g
          | some ue =>
              simp only [hk, hdir, decide_True, Option.isSome_some, Bool.and_true, if_true]
              rw [List.foldl_cons]
              exact ih (runUnit env today g pu.1 pu.2)
        · rw [runUnit_noop_notKnown env today g pu.1 pu.2 hk]
          simp only [hk, decide_False, Bool.false_and, Bool.false_eq_true, if_false]
          exact ih g
  · intro g pid uids ue hk hdir hst hall
    unfold runUnit
    rw [if_pos hk, hdir]
    dsimp only
    obtain ⟨hproc, hsucc, hfail, herr, hdaily, hloc⟩ :=
      unitFold_unresolved env today pid ue uids g ⟨0, 0, 0⟩ hst hall
    refine ⟨hproc, hsucc, hfail, herr, hdaily, ?_⟩
    rw [(unitFold_char env today pid ue uids g ⟨0, 0, 0⟩ hst).1, hloc]
    simp

theorem C8_witness :
    runUnit envDirDown "2026-10-11" ⟨sampleCampaign, fun _ => none, []⟩ "p" ["u1"] =
      ⟨sampleCampaign, fun _ => none, []⟩ :=
  (C8_total_resolution_failure envDirDown "2026-10-11").1
    ⟨sampleCampaign, fun _ => none, []⟩ "p" ["u1"] rfl

/-! ## Lightning endpoint (`lightning_send_batch`, lines 534-591) -/

/-- The `active_campaigns` and `daily_counts` state visible to the
lightning endpoint. -/
structure BackendState where
  campaigns : CampaignStore
  daily : DailyCounts

inductive LightningResp where
  | err (msg : String)
  | fired (n : Nat)
  | sent (n : Nat)
deriving Repr, DecidableEq

/-- Result of a `lightning_send_batch` call: the JSON response, the state
at the moment of return, the detached sends that were fired without being
awaited, and the (empty — the endpoint contains no sleep) wait trace. -/
structure LightningOut where
  resp : LightningResp
  state : BackendState
  tasks : List String
  waits : List Nat

/-- One iteration of the `user_emails` loop of `lightning_send_batch`
(lines 551-557): one `auth.get_user` for the uid; the uid is kept when
the account exists and its email field is truthy (`if user.email:`);
dict assignment keeps insertion order and overwrites duplicates in
place. -/
def ueStep (resolve : String → Option String) (acc : List (String × String))
    (uid : String) : List (String × String) :=
  match resolve uid with
  | none => acc
  | some e => if e = "" then acc else setAssoc uid e acc

/-- The `user_emails` dict of `lightning_send_batch` (lines 549-559). -/
def buildUserEmails (resolve : String → Option String) (userIds : List String) :
    List (String × String) :=
  userIds.foldl (ueStep resolve) []

/-- Embeds `lightning_send_batch` (lines 534-591): error response for an unknown
project; in lightning mode all resolved sends are fired simultaneously
without being awaited (their eventual quota increments happen after the
return and are not part of the returned state) and the response reports
`fired = len(user_emails)` immediately; in regular mode every send is
awaited, successes counted in `sent` with a synchronous quota increment
each.  No campaign record is read or written on any path. -/
def lightning_send_batch (env : RunEnv) (today : String) (st : BackendState)
    (projectId : String) (userIds : List String) (lightning : Bool) : LightningOut :=
  if projectId ∈ env.known then
    let user_emails := buildUserEmails (env.getUser projectId) userIds
    if lightning then
      { resp := .fired user_emails.length
        state := st
        tasks := user_emails.map (·.2)
        waits := [] }
    else
      let r := user_emails.foldl (fun (p : Nat × DailyCounts) ue =>
          if env.sendOk projectId ue.2 then
            (p.1 + 1, increment_daily_count today projectId p.2)
          else p) (0, st.daily)
      { resp := .sent r.1
        state := ⟨st.campaigns, r.2⟩
        tasks := []
        waits := [] }
  else
    { resp := .err "Project not found", state := st, tasks := [], waits := [] }

theorem setAssoc_length_absent {β : Type} (k : String) (v : β) :
    ∀ l : List (String × β), getAssoc k l = none → (setAssoc k v l).length = l.length + 1 := by
  intro l
  induction l with
  | nil => intro _; rfl
  | cons hd tl ih =>
      intro h
      unfold getAssoc at h
      by_cases hk : hd.1 = k
      · rw [if_pos hk] at h
        exact absurd h (by simp)
      · rw [if_neg hk] at h
        unfold setAssoc
        rw [if_neg hk]
        simp only [List.length_cons, ih h]

theorem ueStep_skip (resolve : String → Option String) (acc : List (String × String))
    (uid : String) (h : truthyStr (resolve uid) = false) :
    ueStep resolve acc uid = acc := by
  unfold ueStep
  cases hres : resolve uid with
  | none => rfl
  | some e =>
      rw [hres] at h
      unfold truthyStr at h
      simp only [decide_eq_false_iff_not, not_not] at h
      dsimp only
      rw [if_pos h]

theorem ueStep_keep (resolve : String → Option String) (acc : List (String × String))
    (uid : String) (e : String) (hres : resolve uid = some e) (he : e ≠ "") :
    ueStep resolve acc uid = setAssoc uid e acc := by
  unfold ueStep
  rw [hres]
  dsimp only
  rw [if_neg he]

theorem buildUserEmails_aux (resolve : String → Option String) :
    ∀ (userIds : List String) (acc : List (String × String)),
      userIds.Nodup → (∀ uid ∈ userIds, getAssoc uid acc = none) →
      (userIds.foldl (ueStep resolve) acc).length =
      acc.length + (userIds.filter (fun u => truthyStr (resolve u))).length := by
  intro userIds
  induction userIds with
  | nil => intro acc _ _; simp
  | cons uid rest ih =>
      intro acc hnd habs
      rw [List.nodup_cons] at hnd
      rw [List.foldl_cons, List.filter_cons]
      cases htr : truthyStr (resolve uid) with
      | false =>
          rw [ueStep_skip resolve acc uid htr]
          rw [if_neg (by simp)]
          exact ih acc hnd.2 (fun v hv => habs v (List.mem_cons_of_mem _ hv))
      | true =>
          obtain ⟨e, hres, he⟩ : ∃ e, resolve uid = some e ∧ e ≠ "" := by
            cases hres : resolve uid with
            | none => rw [hres] at htr; exact absurd htr (by unfold truthyStr; simp)
            | some e =>
                refine ⟨e, rfl, ?_⟩
                rw [hres] at htr
                unfold truthyStr at htr
                simpa using htr
          rw [ueStep_keep resolve acc uid e hres he]
          rw [if_pos rfl]
          have habs' : ∀ v ∈ rest, getAssoc v (setAssoc uid e acc) = none := by
            intro v hv
            have hne : v ≠ uid := fun hh => hnd.1 (hh ▸ hv)
            rw [getAssoc_setAssoc_other _ _ _ _ hne]
            exact habs v (List.mem_cons_of_mem _ hv)
          rw [ih (setAssoc uid e acc) hnd.2 habs',
            setAssoc_length_absent uid e acc (habs uid (List.mem_cons_self _ _)),
            List.length_cons]
          omega

theorem buildUserEmails_length (resolve : String → Option String)
    (userIds : List String) (hnd : userIds.Nodup) :
    (buildUserEmails resolve userIds).length =
      (userIds.filter (fun u => truthyStr (resolve u))).length := by
  have := buildUserEmails_aux resolve userIds [] hnd (by intro _ _; rfl)
  simpa [buildUserEmails] using this

/-- C9: with the lightning flag set and the project known, the call
returns immediately with `fired` equal to the number of identifiers that
resolved to a (truthy) email address — the count of attempts fired, all
detached and unwaited — before any delivery outcome can matter: the
response is unchanged under any delivery oracle, the returned state
(campaigns and quota alike) is exactly the input state, and the response
does not depend on the campaign store at all. -/
theorem C9_lightning_fired (env : RunEnv) (today : String) (st : BackendState)
    (projectId : String) (userIds : List String)
    (hk : projectId ∈ env.known) (hnd : userIds.Nodup) :
    (lightning_send_batch env today st projectId userIds true).resp =
      .fired ((userIds.filter (fun u => truthyStr (env.getUser projectId u))).length)
    ∧ (lightning_send_batch env today st projectId userIds true).state = st
    ∧ (lightning_send_batch env today st projectId userIds true).tasks.length =
        (userIds.filter (fun u => truthyStr (env.getUser projectId u))).length
    ∧ (∀ st' : BackendState,
        (lightning_send_batch env today st' projectId userIds true).resp =
          (lightning_send_batch env today st projectId userIds true).resp)
    ∧ (∀ ok : String → String → Bool,
        (lightning_send_batch { env with sendOk := ok } today st projectId userIds
            true).resp =
          (lightning_send_batch env today st projectId userIds true).resp) := by
  unfold lightning_send_batch
  rw [if_pos hk, if_pos (Eq.refl true)]
  refine ⟨?_, rfl, ?_, ?_, ?_⟩
  · dsimp only
    rw [buildUserEmails_length (env.getUser projectId) userIds hnd]
  · dsimp only
    rw [List.length_map, buildUserEmails_length (env.getUser projectId) userIds hnd]
  · intro st'
    rw [if_pos hk, if_pos (Eq.refl true)]
  · intro ok
    have hk' : projectId ∈ ({ env with sendOk := ok } : RunEnv).known := hk
    rw [if_pos hk', if_pos (Eq.refl true)]

/-- All five identifiers of this environment resolve. -/
def envLightning : RunEnv :=
  { known := ["p"]
    directory := fun _ => none
    getUser := fun pid uid => if pid = "p" then some (uid ++ "@mail.test") else none
    sendOk := fun _ _ => false
    sendErr := fun _ _ => "error" }

theorem C9_witness :
    (lightning_send_batch envLightning "2026-10-11" ⟨fun _ => none, fun _ => none⟩ "p"
        ["u1", "u2", "u3", "u4", "u5"] true).resp =
      .fired ((["u1", "u2", "u3", "u4", "u5"].filter
        (fun u => truthyStr (envLightning.getUser "p" u))).length)
    ∧ (["u1", "u2", "u3", "u4", "u5"].filter
        (fun u => truthyStr (envLightning.getUser "p" u))).length = 5 :=
  ⟨(C9_lightning_fired envLightning "2026-10-11" ⟨fun _ => none, fun _ => none⟩ "p"
      ["u1", "u2", "u3", "u4", "u5"] (by decide) (by decide)).1, by decide⟩

/-! ## Pacing (C5) -/

theorem stepUid_waits (env : RunEnv) (today pid : String) (ue : String → Option String)
    (g : Globals) (l : ProjectStats) (uid : String) :
    (stepUid env today pid ue g l uid).1.waits = g.waits ++ [150] := rfl

theorem unitFold_waits (env : RunEnv) (today pid : String) (ue : String → Option String)
    (uids : List String) :
    ∀ (g : Globals) (l : ProjectStats),
      ((uids.foldl (fun p uid => stepUid env today pid ue p.1 p.2 uid) (g, l)).1).waits =
        g.waits ++ List.replicate uids.length 150 := by
  induction uids with
  | nil => intro g l; simp
  | cons uid rest ih =>
      intro g l
      rw [List.foldl_cons, ih, stepUid_waits]
      simp [List.replicate_succ]

theorem runUnit_waits (env : RunEnv) (today : String) (g : Globals) (pid : String)
    (uids : List String) (ue : String → Option String)
    (hk : pid ∈ env.known) (hdir : env.directory pid = some ue) :
    (runUnit env today g pid uids).waits = g.waits ++ List.replicate uids.length 150 := by
  unfold runUnit
  rw [if_pos hk, hdir]
  dsimp only
  exact unitFold_waits env today pid ue uids g ⟨0, 0, 0⟩

/-- The pacing schedule C5 claims, stated from the claim's words: after
each item wait the configured inter-item delay, plus the additional
inter-batch delay after each full batch boundary of `batchSize` items.
Delays in milliseconds. -/
def specPaceTrace (dItem dBatch batchSize n : Nat) : List Nat :=
  (List.range n).map (fun i =>
    if (i + 1) % batchSize = 0 then dItem + dBatch else dItem)

theorem map_const_eq_replicate {α : Type} (l : List α) (c : Nat) :
    l.map (fun _ => c) = List.replicate l.length c := by
  induction l with
  | nil => rfl
  | cons hd tl ih => simp [ih, List.replicate_succ]

/-- C5 counterexample: with `batchSize = 2` and two identifiers the unit
waits 150 ms after each; no positive inter-batch delay can reproduce that
schedule, since the wait at the batch boundary (after item 2) equals the
wait after item 1. -/
theorem C5_counterexample :
    ¬ ∃ dItem dBatch : Nat, 0 < dBatch ∧
      (runUnit envResolveNone "2026-10-11" ⟨campaignTwoUsers, fun _ => none, []⟩ "p"
        ["u1", "u2"]).waits = specPaceTrace dItem dBatch 2 2 := by
  rintro ⟨dI, dB, hdB, h⟩
  have hw : (runUnit envResolveNone "2026-10-11" ⟨campaignTwoUsers, fun _ => none, []⟩ "p"
      ["u1", "u2"]).waits = [150, 150] := by decide
  have hs : specPaceTrace dI dB 2 2 = [dI, dI + dB] := rfl
  rw [hw, hs] at h
  simp only [List.cons.injEq, List.nil_eq] at h
  omega

/-- C5 (amended): in throttled (campaign) mode the Dispatch Unit sleeps a
fixed 0.15 s after every identifier — attempted or skipped — with no
additional inter-batch pause: the observed schedule is the claimed one
with inter-item delay 150 ms and inter-batch delay zero, regardless of
`batchSize`; the lightning endpoint performs no waits on any path. -/
theorem C5_fixed_interitem_delay_only (env : RunEnv) (today : String) (g : Globals)
    (pid : String) (uids : List String) (ue : String → Option String) (b : Nat)
    (hk : pid ∈ env.known) (hdir : env.directory pid = some ue) :
    (runUnit env today g pid uids).waits = g.waits ++ List.replicate uids.length 150
    ∧ List.replicate uids.length 150 = specPaceTrace 150 0 b uids.length
    ∧ (∀ (st : BackendState) (projectId : String) (userIds : List String) (fl : Bool),
        (lightning_send_batch env today st projectId userIds fl).waits = []) := by
  refine ⟨runUnit_waits env today g pid uids ue hk hdir, ?_, ?_⟩
  · unfold specPaceTrace
    have hfun : (fun i => if (i + 1) % b = 0 then 150 + 0 else 150) = fun (_ : Nat) => 150 := by
      funext i
      simp
    rw [hfun, map_const_eq_replicate, List.length_range]
  · intro st projectId userIds fl
    unfold lightning_send_batch
    by_cases h : projectId ∈ env.known
    · rw [if_pos h]
      cases fl
      · rfl
      · rfl
    · rw [if_neg h]

theorem C5_witness :
    (runUnit envResolveNone "2026-10-11" ⟨campaignTwoUsers, fun _ => none, []⟩ "p"
        ["u1", "u2"]).waits = [] ++ List.replicate 2 150 :=
  (C5_fixed_interitem_delay_only envResolveNone "2026-10-11"
      ⟨campaignTwoUsers, fun _ => none, []⟩ "p" ["u1", "u2"] (fun _ => none) 2
      (by decide) rfl).1

/-! ### `create_campaign` output is a fresh campaign -/

theorem getAssoc_zeros (k : String) :
    ∀ pids : List String, k ∈ pids →
      getAssoc k (pids.map (fun pid => (pid, (⟨0, 0, 0⟩ : ProjectStats)))) =
        some ⟨0, 0, 0⟩ := by
  intro pids
  induction pids with
  | nil => intro h; simp at h
  | cons hd tl ih =>
      intro h
      simp only [List.map_cons, getAssoc]
      by_cases hk : hd = k
      · rw [if_pos hk]
      · rw [if_neg hk]
        refine ih ?_
        rcases List.mem_cons.mp h with h1 | h2
        · exact absurd h1.symm hk
        · exact h2

/-- When `selectedUsers` targets only listed projects and its keys are
distinct (a Python dict), `create_campaign` hands the scheduler a fresh
campaign, so the hypotheses of the run theorems above are met by every
campaign the engine itself creates. -/
theorem create_campaign_fresh (store : CampaignStore) (cid : String) (now : Nat)
    (name : String) (projectIds : List String)
    (selectedUsers : List (String × List String)) (batchSize workers : Int)
    (template : Option String)
    (hsub : ∀ pu ∈ selectedUsers, pu.1 ∈ projectIds)
    (hnd : (selectedUsers.map (·.1)).Nodup) :
    freshCampaign (create_campaign store cid now name projectIds selectedUsers
      batchSize workers template).2 := by
  refine ⟨rfl, rfl, rfl, ?_, ?_, hnd⟩
  · intro p hp
    unfold create_campaign at hp
    dsimp only at hp
    rcases List.mem_map.mp hp with ⟨pid, _, hpe⟩
    rw [← hpe]
  · intro pu hpu
    exact getAssoc_zeros pu.1 projectIds (hsub pu hpu)

theorem create_campaign_fresh_witness :
    freshCampaign (create_campaign (fun _ => none) "c1" 0 "camp" ["p"] [("p", ["u1"])]
      10 2 none).2 :=
  create_campaign_fresh (fun _ => none) "c1" 0 "camp" ["p"] [("p", ["u1"])] 10 2 none
    (by decide) (by decide)

end FirebaseBackend
